import Mathlib

/-!
Verification development for the metamist web frontend sources.

This file gives a shallow embedding, in Lean 4, of the data-shaping logic of
the repository's three source files:

* the billing aggregation of the Cromwell/Dataproc cost grid
  (`prepareTotalRow`, `prepareDetails`, `combinedData`,
  `src/web/src/pages/project/ProjectGrid.tsx`, second document, lines 472-600);
* the participant-grid row-span layout
  (`lengthOfParticipant`, placeholder synthesis for sequencing groups and
  assays, `ProjectGrid.tsx`, first document, lines 285-312);
* the SeqInfo value formatting (`formatBytes`, `safeValue`, the external-id
  rendering, `src/unnamed/part_000`).

JavaScript numbers are modelled as exact rationals (`ℚ`) for costs and exact
integers for epoch-millisecond timestamps and metadata integers; `undefined`
and `null` are modelled with `Option`; JS objects indexed by arbitrary string
keys (the billing records) carry a total lookup function `String → Option
String` for their string-valued properties.
-/

/-! ## Billing usage records (ProjectGrid.tsx, second document)

A flat billing/usage record, as consumed by `prepareTotalRow` and
`prepareDetails`.  `fields` models property lookup `curr[key]` for the
string-valued properties that the code reads by name
(`'ar-guid'`, `'cromwell-workflow-id'`, `'goog-pipelines-worker'`,
`'compute-category'`, the `goog-dataproc-*` keys, `'wdl-task-name'`,
`'cromwell-sub-workflow-name'`, `'seq_group_id'`); a missing property is
`none` (JS `undefined`).  `usage_start_time`/`usage_end_time` are the epoch
milliseconds of the record's date strings (`new Date(...).getTime()`), and
`sku_description` is `curr.sku.description`. -/
structure UsageRecord where
  cost : ℚ
  topic : Option String
  creator : Option String
  usage_start_time : Int
  usage_end_time : Int
  sku_description : String
  fields : String → Option String

/-- One aggregated totals row, as built by `prepareTotalRow` (lines 500-525).
Fields that `setFieldValue` sets only when defined are `Option`-valued
(an absent JS property is `none`). -/
structure AggRow where
  type : String
  key : String
  ar_guid : Option String
  compute_category : Option String
  topic : Option String
  cost : ℚ
  start_time : Int
  end_time : Int
  wdl_task_name : Option String
  cromwell_sub : Option String
  seq_group_id : Option String
  goog_pipelines_worker : Option String
  cromwell_id : Option String
  creator : Option String
  dataproc_autozone : Option String
  dataproc_name : Option String
  dataproc_uuid : Option String
  dataproc_location : Option String
deriving DecidableEq

/-- One per-SKU detail row, as built by `prepareDetails` (lines 554-565). -/
structure DetailRow where
  type : String
  key : String
  ar_guid : Option String
  cromwell_id : Option String
  topic : Option String
  cost : ℚ
  wdl_task_name : Option String
  cromwell_sub : Option String
  seq_group_id : Option String
  batch_resource : String
deriving DecidableEq

/-- The freshly created totals row of `prepareTotalRow` for a record `r`
whose value at the grouping key `key` is `v` (lines 501-522, including the
`setFieldValue` calls, which with `Option` fields are plain assignments). -/
def mkAggRow (key v : String) (r : UsageRecord) : AggRow :=
  { type := key
    key := v
    ar_guid := r.fields "ar-guid"
    compute_category := r.fields "compute-category"
    topic := r.topic
    cost := r.cost
    start_time := r.usage_start_time
    end_time := r.usage_end_time
    wdl_task_name := if key = "wdl-task-name" then r.fields key else none
    cromwell_sub := if key = "cromwell-sub-workflow-name" then r.fields key else none
    seq_group_id := if key = "seq_group_id" then r.fields key else none
    goog_pipelines_worker := r.fields "goog-pipelines-worker"
    cromwell_id := r.fields "cromwell-workflow-id"
    creator := r.creator
    dataproc_autozone := r.fields "goog-dataproc-autozone"
    dataproc_name := r.fields "goog-dataproc-cluster-name"
    dataproc_uuid := r.fields "goog-dataproc-cluster-uuid"
    dataproc_location := r.fields "goog-dataproc-location" }

/-- The in-place update of a matching totals row (lines 527-533):
`cost += record.cost`, `start_time = min(record, existing)`,
`end_time = max(record, existing)`. -/
def mergeAgg (d : AggRow) (r : UsageRecord) : AggRow :=
  { d with cost := d.cost + r.cost
           start_time := min r.usage_start_time d.start_time
           end_time := max r.usage_end_time d.end_time }

/-- Find-or-create on the accumulated totals rows.  The source locates the
first row with `d.key === curr[key]` via `findIndex` and updates it in place,
otherwise pushes a fresh row at the end; this recursion does exactly that. -/
def totalInsert (key v : String) (r : UsageRecord) : List AggRow → List AggRow
  | [] => [mkAggRow key v r]
  | d :: ds =>
      if d.key = v then mergeAgg d r :: ds
      else d :: totalInsert key v r ds

/-- Processing of one record by `prepareTotalRow`: the record is skipped when
`curr[key]` is `undefined` or `cost < 0` (line 498, `curr[key] !== undefined
&& cost >= 0`), otherwise merged into the accumulator. -/
def totalStep (key : String) (acc : List AggRow) (r : UsageRecord) : List AggRow :=
  match r.fields key with
  | none => acc
  | some v => if r.cost < 0 then acc else totalInsert key v r acc

/-- `prepareTotalRow(data, key)` (lines 479-539): one left-to-right scan of
the records, aggregating by the value of the grouping key. -/
def prepareTotalRow (data : List UsageRecord) (key : String) : List AggRow :=
  data.foldl (totalStep key) []

/-- The freshly created detail row of `prepareDetails` (lines 554-565). -/
def mkDetailRow (key v : String) (r : UsageRecord) : DetailRow :=
  { type := key
    key := v
    ar_guid := r.fields "ar-guid"
    cromwell_id := r.fields "cromwell-workflow-id"
    topic := r.topic
    cost := r.cost
    wdl_task_name := if key = "wdl-task-name" then r.fields key else none
    cromwell_sub := if key = "cromwell-sub-workflow-name" then r.fields key else none
    seq_group_id := if key = "seq_group_id" then r.fields key else none
    batch_resource := r.sku_description }

/-- Find-or-create on detail rows, matching on the pair
`(d.key === curr[key], d.batch_resource === sku.description)` (lines
548-550); on a match only `cost` is accumulated (line 567). -/
def detailInsert (key v : String) (r : UsageRecord) : List DetailRow → List DetailRow
  | [] => [mkDetailRow key v r]
  | d :: ds =>
      if d.key = v ∧ d.batch_resource = r.sku_description then
        { d with cost := d.cost + r.cost } :: ds
      else d :: detailInsert key v r ds

/-- Processing of one record by `prepareDetails`; the skip condition (line
551) is the same as in `prepareTotalRow`. -/
def detailStep (key : String) (acc : List DetailRow) (r : UsageRecord) : List DetailRow :=
  match r.fields key with
  | none => acc
  | some v => if r.cost < 0 then acc else detailInsert key v r acc

/-- `prepareDetails(data, key)` (lines 541-573). -/
def prepareDetails (data : List UsageRecord) (key : String) : List DetailRow :=
  data.foldl (detailStep key) []

/-! ### Specification-side record filters and sums -/

/-- A record survives the aggregation filter for `key` iff its value at the
grouping key is defined and its cost is nonnegative. -/
def keptBy (key : String) (r : UsageRecord) : Bool :=
  (r.fields key).isSome && decide (0 ≤ r.cost)

/-- The records that are not skipped for the grouping key `key`. -/
def keptRecords (data : List UsageRecord) (key : String) : List UsageRecord :=
  data.filter (keptBy key)

/-- Membership test of a record in the group of value `v` of key `key`. -/
def groupPred (key v : String) (r : UsageRecord) : Bool :=
  (r.fields key == some v) && decide (0 ≤ r.cost)

/-- The non-skipped records whose value at `key` is `v`. -/
def groupOf (data : List UsageRecord) (key v : String) : List UsageRecord :=
  data.filter (groupPred key v)

/-- Sum of the costs of a list of usage records. -/
def recCostSum (l : List UsageRecord) : ℚ := (l.map (fun r => r.cost)).sum

/-- Sum of the costs of a list of totals rows. -/
def aggCostSum (l : List AggRow) : ℚ := (l.map (fun d => d.cost)).sum

/-- Sum of the costs of a list of detail rows. -/
def detailCostSum (l : List DetailRow) : ℚ := (l.map (fun d => d.cost)).sum

theorem recCostSum_nil : recCostSum [] = 0 := rfl

theorem recCostSum_append (a b : List UsageRecord) :
    recCostSum (a ++ b) = recCostSum a + recCostSum b := by
  simp [recCostSum]

theorem recCostSum_singleton (r : UsageRecord) : recCostSum [r] = r.cost := by
  simp [recCostSum]

theorem aggCostSum_cons (d : AggRow) (l : List AggRow) :
    aggCostSum (d :: l) = d.cost + aggCostSum l := by
  simp [aggCostSum]

theorem detailCostSum_append (a b : List DetailRow) :
    detailCostSum (a ++ b) = detailCostSum a + detailCostSum b := by
  simp [detailCostSum]

/-! ### C1: the total cost is preserved by the aggregation -/

theorem aggCostSum_totalInsert (key v : String) (r : UsageRecord) :
    ∀ acc : List AggRow, aggCostSum (totalInsert key v r acc) = aggCostSum acc + r.cost
  | [] => by simp [totalInsert, aggCostSum, mkAggRow]
  | d :: ds => by
      by_cases h : d.key = v
      · simp [totalInsert, h, aggCostSum_cons, mergeAgg]
        ring
      · simp [totalInsert, h, aggCostSum_cons, aggCostSum_totalInsert key v r ds]
        ring

theorem aggCostSum_totalStep (key : String) (acc : List AggRow) (r : UsageRecord) :
    aggCostSum (totalStep key acc r) =
      aggCostSum acc + (if keptBy key r then r.cost else 0) := by
  unfold totalStep keptBy
  cases hf : r.fields key with
  | none => simp [hf]
  | some v =>
      by_cases hc : r.cost < 0
      · have : ¬ (0 ≤ r.cost) := not_le.mpr hc
        simp [hf, hc, this]
      · have : 0 ≤ r.cost := not_lt.mp hc
        simp [hf, hc, this, aggCostSum_totalInsert]

theorem foldl_totalStep_costSum (key : String) :
    ∀ (data : List UsageRecord) (acc : List AggRow),
      aggCostSum (data.foldl (totalStep key) acc) =
        aggCostSum acc + recCostSum (keptRecords data key)
  | [], acc => by simp [keptRecords, recCostSum]
  | r :: rest, acc => by
      have ih := foldl_totalStep_costSum key rest (totalStep key acc r)
      by_cases hk : keptBy key r
      · simp [List.foldl_cons, ih, aggCostSum_totalStep, hk, keptRecords,
              List.filter_cons, recCostSum]
        ring
      · simp [List.foldl_cons, ih, aggCostSum_totalStep, hk, keptRecords,
              List.filter_cons, recCostSum]

/-- C1: For every list of usage records and every grouping key, the sum of
the `cost` fields over all rows returned by `prepareTotalRow` equals the sum
of `record.cost` over exactly those input records whose cost is `≥ 0` and
whose value at the grouping key is defined. -/
theorem totals_cost_sum_eq_kept_sum (data : List UsageRecord) (key : String) :
    aggCostSum (prepareTotalRow data key) = recCostSum (keptRecords data key) := by
  have h := foldl_totalStep_costSum key data []
  simpa [prepareTotalRow, aggCostSum] using h

/-! ### C5: per-group cost, start and end times -/

/-- Incremental minimum, as the scan performs it (`Math.min` per record). -/
def optMin (a : Option Int) (x : Int) : Option Int :=
  match a with
  | none => some x
  | some m => some (min m x)

/-- Incremental maximum. -/
def optMax (a : Option Int) (x : Int) : Option Int :=
  match a with
  | none => some x
  | some m => some (max m x)

/-- Minimum `usage_start_time` over a list of records (`none` when empty). -/
def minStart (l : List UsageRecord) : Option Int :=
  l.foldl (fun a r => optMin a r.usage_start_time) none

/-- Maximum `usage_end_time` over a list of records (`none` when empty). -/
def maxEnd (l : List UsageRecord) : Option Int :=
  l.foldl (fun a r => optMax a r.usage_end_time) none

theorem minStart_append_one (l : List UsageRecord) (r : UsageRecord) :
    minStart (l ++ [r]) = optMin (minStart l) r.usage_start_time := by
  simp [minStart, List.foldl_append]

theorem maxEnd_append_one (l : List UsageRecord) (r : UsageRecord) :
    maxEnd (l ++ [r]) = optMax (maxEnd l) r.usage_end_time := by
  simp [maxEnd, List.foldl_append]

/-- The keys of the accumulated totals rows, in accumulator order. -/
def aggKeys (l : List AggRow) : List String := l.map (fun d => d.key)

theorem mergeAgg_key (d : AggRow) (r : UsageRecord) : (mergeAgg d r).key = d.key := rfl

theorem mergeAgg_type (d : AggRow) (r : UsageRecord) : (mergeAgg d r).type = d.type := rfl

theorem mkAggRow_key (key v : String) (r : UsageRecord) : (mkAggRow key v r).key = v := rfl

theorem aggKeys_totalInsert (key v : String) (r : UsageRecord) :
    ∀ acc : List AggRow,
      aggKeys (totalInsert key v r acc) =
        if v ∈ aggKeys acc then aggKeys acc else aggKeys acc ++ [v]
  | [] => by simp [totalInsert, aggKeys, mkAggRow]
  | d :: ds => by
      have hcons : aggKeys (d :: ds) = d.key :: aggKeys ds := rfl
      by_cases h : d.key = v
      · have hpos : v ∈ aggKeys (d :: ds) := by
          rw [hcons, ← h]
          exact List.mem_cons_self _ _
        have hins : totalInsert key v r (d :: ds) = mergeAgg d r :: ds := by
          simp [totalInsert, h]
        rw [hins, if_pos hpos]
        show (mergeAgg d r).key :: aggKeys ds = d.key :: aggKeys ds
        rw [mergeAgg_key]
      · have ih := aggKeys_totalInsert key v r ds
        have hne : v ≠ d.key := fun hv => h hv.symm
        have hins : totalInsert key v r (d :: ds) = d :: totalInsert key v r ds := by
          simp [totalInsert, h]
        have hcond : (v ∈ aggKeys (d :: ds)) ↔ (v ∈ aggKeys ds) := by
          rw [hcons]
          constructor
          · intro hm
            rcases List.mem_cons.mp hm with hm | hm
            · exact absurd hm hne
            · exact hm
          · exact fun hm => List.mem_cons_of_mem _ hm
        by_cases hmem : v ∈ aggKeys ds
        · rw [hins, if_pos (hcond.mpr hmem)]
          show d.key :: aggKeys (totalInsert key v r ds) = d.key :: aggKeys ds
          rw [ih, if_pos hmem]
        · rw [hins, if_neg (fun hm => hmem (hcond.mp hm))]
          show d.key :: aggKeys (totalInsert key v r ds) = aggKeys (d :: ds) ++ [v]
          rw [ih, if_neg hmem, hcons]
          rfl

/-- Where a row of `totalInsert key v r acc` comes from, assuming the
accumulated keys are distinct: it is an untouched old row with a different
key, the merge of the unique old row with key `v`, or (when no old row has
key `v`) the freshly created row. -/
theorem totalInsert_mem (key v : String) (r : UsageRecord) :
    ∀ acc : List AggRow, (aggKeys acc).Nodup →
      ∀ row ∈ totalInsert key v r acc,
        (row ∈ acc ∧ row.key ≠ v) ∨
        (∃ d, d ∈ acc ∧ d.key = v ∧ row = mergeAgg d r) ∨
        (v ∉ aggKeys acc ∧ row = mkAggRow key v r)
  | [], _, row, hrow => by
      simp [totalInsert] at hrow
      exact Or.inr (Or.inr ⟨by simp [aggKeys], hrow⟩)
  | d :: ds, hnd, row, hrow => by
      have hnd2 : (aggKeys ds).Nodup := (List.nodup_cons.mp hnd).2
      have hdkey : d.key ∉ aggKeys ds := (List.nodup_cons.mp hnd).1
      by_cases h : d.key = v
      · simp [totalInsert, h] at hrow
        rcases hrow with hrow | hrow
        · exact Or.inr (Or.inl ⟨d, by simp, h, hrow⟩)
        · have hne : row.key ≠ v := by
            intro hk
            apply hdkey
            rw [h, ← hk]
            exact List.mem_map_of_mem (fun x => x.key) hrow
          exact Or.inl ⟨List.mem_cons_of_mem d hrow, hne⟩
      · simp only [totalInsert, if_neg h] at hrow
        rcases List.mem_cons.mp hrow with hrow | hrow
        · subst hrow
          exact Or.inl ⟨List.mem_cons_self _ _, h⟩
        · rcases totalInsert_mem key v r ds hnd2 row hrow with hc | hc | hc
          · exact Or.inl ⟨List.mem_cons_of_mem d hc.1, hc.2⟩
          · obtain ⟨d2, hd2, hk2, he2⟩ := hc
            exact Or.inr (Or.inl ⟨d2, List.mem_cons_of_mem d hd2, hk2, he2⟩)
          · refine Or.inr (Or.inr ⟨?_, hc.2⟩)
            simp [aggKeys]
            exact ⟨fun hv => h hv.symm, by simpa [aggKeys] using hc.1⟩

theorem groupOf_nil (key v : String) : groupOf [] key v = [] := rfl

theorem groupOf_append_one (data : List UsageRecord) (r : UsageRecord) (key v : String) :
    groupOf (data ++ [r]) key v =
      groupOf data key v ++ (if groupPred key v r then [r] else []) := by
  simp only [groupOf, List.filter_append, List.filter_cons, List.filter_nil]

theorem groupPred_skipped {key : String} {r : UsageRecord}
    (h : r.fields key = none ∨ r.cost < 0) (v : String) :
    groupPred key v r = false := by
  rcases h with h | h
  · simp [groupPred, h]
  · simp [groupPred, not_le.mpr h]

theorem groupPred_kept {key v0 : String} {r : UsageRecord}
    (hf : r.fields key = some v0) (hc : ¬ r.cost < 0) (v : String) :
    groupPred key v r = decide (v = v0) := by
  by_cases hv : v = v0
  · simp [groupPred, hf, hv, not_lt.mp hc]
  · have : ¬ (some v0 == some v) = true := by
      simp
      exact fun he => hv he.symm
    simp [groupPred, hf, hv]
    intro he
    exact absurd he.symm hv

/-- The full one-pass invariant of `prepareTotalRow`: keys are distinct, each
row carries exactly the cost sum, minimum start and maximum end of its group,
and absent keys have empty groups. -/
def totalsInvariant (data : List UsageRecord) (key : String) (acc : List AggRow) : Prop :=
  (aggKeys acc).Nodup ∧
  (∀ row ∈ acc,
      row.type = key ∧
      row.cost = recCostSum (groupOf data key row.key) ∧
      minStart (groupOf data key row.key) = some row.start_time ∧
      maxEnd (groupOf data key row.key) = some row.end_time) ∧
  (∀ v, v ∉ aggKeys acc → groupOf data key v = [])

theorem totalStep_skipped {key : String} {r : UsageRecord}
    (h : r.fields key = none ∨ r.cost < 0) (acc : List AggRow) :
    totalStep key acc r = acc := by
  rcases h with h | h
  · simp [totalStep, h]
  · cases hf : r.fields key <;> simp [totalStep, hf, h]

theorem detailStep_skipped {key : String} {r : UsageRecord}
    (h : r.fields key = none ∨ r.cost < 0) (acc : List DetailRow) :
    detailStep key acc r = acc := by
  rcases h with h | h
  · simp [detailStep, h]
  · cases hf : r.fields key <;> simp [detailStep, hf, h]

theorem groupOf_append_skipped {key : String} {r : UsageRecord}
    (h : r.fields key = none ∨ r.cost < 0) (data : List UsageRecord) (v : String) :
    groupOf (data ++ [r]) key v = groupOf data key v := by
  simp [groupOf_append_one, groupPred_skipped h]

theorem groupOf_append_kept {key v0 : String} {r : UsageRecord}
    (hf : r.fields key = some v0) (hc : ¬ r.cost < 0) (data : List UsageRecord) (v : String) :
    groupOf (data ++ [r]) key v =
      groupOf data key v ++ (if v = v0 then [r] else []) := by
  rw [groupOf_append_one, groupPred_kept hf hc]
  by_cases hv : v = v0 <;> simp [hv]

theorem minStart_singleton (r : UsageRecord) : minStart [r] = some r.usage_start_time := rfl

theorem maxEnd_singleton (r : UsageRecord) : maxEnd [r] = some r.usage_end_time := rfl

/-- The invariant holds at the end of the scan, for every input list. -/
theorem totalsInvariant_holds (key : String) (data : List UsageRecord) :
    totalsInvariant data key (prepareTotalRow data key) := by
  induction data using List.reverseRecOn with
  | nil =>
      refine ⟨by simp [prepareTotalRow, aggKeys], ?_, ?_⟩
      · intro row hrow
        simp [prepareTotalRow] at hrow
      · intro v _
        rfl
  | append_singleton l r ih =>
      obtain ⟨hnd, hrows, habs⟩ := ih
      have hstep : prepareTotalRow (l ++ [r]) key =
          totalStep key (prepareTotalRow l key) r := by
        simp [prepareTotalRow, List.foldl_append]
      by_cases hskip : r.fields key = none ∨ r.cost < 0
      · rw [hstep, totalStep_skipped hskip]
        refine ⟨hnd, ?_, ?_⟩
        · intro row hrow
          rw [groupOf_append_skipped hskip]
          exact hrows row hrow
        · intro v hv
          rw [groupOf_append_skipped hskip]
          exact habs v hv
      · push_neg at hskip
        obtain ⟨hfne, hc⟩ := hskip
        have hc : ¬ r.cost < 0 := not_lt.mpr hc
        obtain ⟨v0, hf⟩ : ∃ v0, r.fields key = some v0 := by
          cases hval : r.fields key with
          | none => exact absurd hval hfne
          | some v0 => exact ⟨v0, rfl⟩
        have hins : prepareTotalRow (l ++ [r]) key =
            totalInsert key v0 r (prepareTotalRow l key) := by
          rw [hstep]
          simp [totalStep, hf, hc]
        rw [hins]
        refine ⟨?_, ?_, ?_⟩
        · -- distinct keys
          rw [aggKeys_totalInsert]
          by_cases hmem : v0 ∈ aggKeys (prepareTotalRow l key)
          · rw [if_pos hmem]
            exact hnd
          · rw [if_neg hmem]
            simp [List.nodup_append, hnd, List.disjoint_singleton, hmem]
        · -- per-row fields
          intro row hrow
          rcases totalInsert_mem key v0 r (prepareTotalRow l key) hnd row hrow
            with hcase | hcase | hcase
          · obtain ⟨hmem, hne⟩ := hcase
            obtain ⟨ht, hcost, hmin, hmax⟩ := hrows row hmem
            rw [groupOf_append_kept hf hc, if_neg hne, List.append_nil]
            exact ⟨ht, hcost, hmin, hmax⟩
          · obtain ⟨d, hd, hdk, hde⟩ := hcase
            obtain ⟨ht, hcost, hmin, hmax⟩ := hrows d hd
            subst hde
            have hkey : (mergeAgg d r).key = v0 := by rw [mergeAgg_key, hdk]
            rw [hkey, groupOf_append_kept hf hc, if_pos rfl]
            refine ⟨by rw [mergeAgg_type, ht], ?_, ?_, ?_⟩
            · show (mergeAgg d r).cost = _
              rw [recCostSum_append, recCostSum_singleton, ← hdk, ← hcost]
              rfl
            · rw [minStart_append_one, ← hdk, hmin]
              show some (min d.start_time r.usage_start_time) =
                some (mergeAgg d r).start_time
              rw [min_comm]
              rfl
            · rw [maxEnd_append_one, ← hdk, hmax]
              show some (max d.end_time r.usage_end_time) =
                some (mergeAgg d r).end_time
              rw [max_comm]
              rfl
          · obtain ⟨hmem, hde⟩ := hcase
            subst hde
            have hkey : (mkAggRow key v0 r).key = v0 := rfl
            rw [hkey, groupOf_append_kept hf hc, if_pos rfl, habs v0 hmem,
                List.nil_append]
            exact ⟨rfl, (recCostSum_singleton r).symm, minStart_singleton r,
              maxEnd_singleton r⟩
        · -- absent keys have empty groups
          intro v hv
          rw [aggKeys_totalInsert] at hv
          by_cases hmem : v0 ∈ aggKeys (prepareTotalRow l key)
          · rw [if_pos hmem] at hv
            have hne : v ≠ v0 := fun he => hv (he ▸ hmem)
            rw [groupOf_append_kept hf hc, if_neg hne, List.append_nil]
            exact habs v hv
          · rw [if_neg hmem] at hv
            have hv2 : v ∉ aggKeys (prepareTotalRow l key) ∧ v ≠ v0 := by
              constructor
              · exact fun hm => hv (List.mem_append_left _ hm)
              · intro he
                exact hv (List.mem_append_right _ (by simp [he]))
            rw [groupOf_append_kept hf hc, if_neg hv2.2, List.append_nil]
            exact habs v hv2.1

/-- C5: In the totals aggregation, every returned row's `cost` is the sum of
the costs of the non-skipped records of its group (the records sharing its
key value), its `start_time` is the minimum `usage_start_time` over that
group and its `end_time` the maximum `usage_end_time`; moreover every
nonempty group is represented by a row. -/
theorem totals_group_fields (data : List UsageRecord) (key : String) :
    (∀ row ∈ prepareTotalRow data key,
        row.cost = recCostSum (groupOf data key row.key) ∧
        minStart (groupOf data key row.key) = some row.start_time ∧
        maxEnd (groupOf data key row.key) = some row.end_time) ∧
    (∀ v, groupOf data key v ≠ [] →
        ∃ row ∈ prepareTotalRow data key, row.key = v) := by
  obtain ⟨hnd, hrows, habs⟩ := totalsInvariant_holds key data
  constructor
  · intro row hrow
    obtain ⟨_, h1, h2, h3⟩ := hrows row hrow
    exact ⟨h1, h2, h3⟩
  · intro v hv
    by_contra hno
    push_neg at hno
    apply hv
    apply habs
    intro hmem
    obtain ⟨row, hrow, hkey⟩ := List.mem_map.mp hmem
    exact hno row hrow hkey

/-- A concrete, fully explicit usage record used by the witnesses. -/
def sampleRecord : UsageRecord :=
  { cost := 5
    topic := some "topicA"
    creator := none
    usage_start_time := 100
    usage_end_time := 200
    sku_description := "Compute engine"
    fields := fun s => if s = "ar-guid" then some "guid-1" else none }

theorem totals_group_fields_witness :
    (mkAggRow "ar-guid" "guid-1" sampleRecord).cost =
      recCostSum (groupOf [sampleRecord] "ar-guid"
        (mkAggRow "ar-guid" "guid-1" sampleRecord).key) ∧
    minStart (groupOf [sampleRecord] "ar-guid"
        (mkAggRow "ar-guid" "guid-1" sampleRecord).key) =
      some (mkAggRow "ar-guid" "guid-1" sampleRecord).start_time ∧
    maxEnd (groupOf [sampleRecord] "ar-guid"
        (mkAggRow "ar-guid" "guid-1" sampleRecord).key) =
      some (mkAggRow "ar-guid" "guid-1" sampleRecord).end_time :=
  (totals_group_fields [sampleRecord] "ar-guid").1
    (mkAggRow "ar-guid" "guid-1" sampleRecord) (by decide)

/-- C4: A record whose value at the grouping key is undefined, or whose cost
is negative, contributes to neither `prepareTotalRow` nor `prepareDetails`:
removing it from the input leaves both outputs unchanged, so no row is
created for it and no existing row's fields are affected by it. -/
theorem skipped_record_contributes_nothing
    (data1 data2 : List UsageRecord) (r : UsageRecord) (key : String)
    (h : r.fields key = none ∨ r.cost < 0) :
    prepareTotalRow (data1 ++ r :: data2) key =
      prepareTotalRow (data1 ++ data2) key ∧
    prepareDetails (data1 ++ r :: data2) key =
      prepareDetails (data1 ++ data2) key := by
  constructor
  · simp [prepareTotalRow, List.foldl_append, List.foldl_cons, totalStep_skipped h]
  · simp [prepareDetails, List.foldl_append, List.foldl_cons, detailStep_skipped h]

/-- A concrete credit (negative-cost) record used by the witnesses. -/
def creditRecord : UsageRecord :=
  { cost := -2
    topic := none
    creator := none
    usage_start_time := 0
    usage_end_time := 0
    sku_description := "Credit"
    fields := fun _ => some "g" }

theorem skipped_record_contributes_nothing_witness :
    prepareTotalRow ([] ++ creditRecord :: []) "ar-guid" =
      prepareTotalRow ([] ++ []) "ar-guid" ∧
    prepareDetails ([] ++ creditRecord :: []) "ar-guid" =
      prepareDetails ([] ++ []) "ar-guid" :=
  skipped_record_contributes_nothing [] [] creditRecord "ar-guid"
    (Or.inr (by decide))

/-! ### C6: detail rows attached to a combined row sum to the parent cost -/

/-- Sum of the costs of the detail rows whose key equals `v`. -/
def detailSumAt (acc : List DetailRow) (v : String) : ℚ :=
  detailCostSum (acc.filter (fun d => d.key == v))

theorem detailSumAt_cons (d : DetailRow) (ds : List DetailRow) (v : String) :
    detailSumAt (d :: ds) v =
      (if d.key = v then d.cost else 0) + detailSumAt ds v := by
  by_cases h : d.key = v <;>
    simp [detailSumAt, List.filter_cons, h, detailCostSum]

theorem detailSumAt_insert (key v0 : String) (r : UsageRecord) :
    ∀ (acc : List DetailRow) (v : String),
      detailSumAt (detailInsert key v0 r acc) v =
        detailSumAt acc v + (if v = v0 then r.cost else 0)
  | [], v => by
      by_cases hv : v = v0
      · simp [detailInsert, detailSumAt, mkDetailRow, detailCostSum,
              List.filter_cons, hv]
      · have hv2 : ¬ v0 = v := fun h => hv h.symm
        simp [detailInsert, detailSumAt, mkDetailRow, detailCostSum,
              List.filter_cons, hv, hv2]
  | d :: ds, v => by
      by_cases hm : d.key = v0 ∧ d.batch_resource = r.sku_description
      · have hins : detailInsert key v0 r (d :: ds) =
            { d with cost := d.cost + r.cost } :: ds := by
          simp [detailInsert, hm]
        rw [hins, detailSumAt_cons, detailSumAt_cons]
        show (if d.key = v then d.cost + r.cost else 0) + detailSumAt ds v = _
        by_cases hv : v = v0
        · rw [if_pos (hv ▸ hm.1), if_pos (hv ▸ hm.1), if_pos hv]
          ring
        · have hdv : ¬ d.key = v := fun h => hv ((h ▸ hm.1 : (v : String) = v0))
          rw [if_neg hdv, if_neg hdv, if_neg hv]
          ring
      · have hins : detailInsert key v0 r (d :: ds) =
            d :: detailInsert key v0 r ds := by
          simp only [detailInsert, if_neg hm]
        rw [hins, detailSumAt_cons, detailSumAt_cons,
            detailSumAt_insert key v0 r ds v]
        ring

theorem detailSumAt_step (key : String) (acc : List DetailRow) (r : UsageRecord)
    (v : String) :
    detailSumAt (detailStep key acc r) v =
      detailSumAt acc v + (if groupPred key v r then r.cost else 0) := by
  cases hf : r.fields key with
  | none =>
      simp [detailStep, hf, groupPred_skipped (Or.inl hf)]
  | some v0 =>
      by_cases hc : r.cost < 0
      · simp [detailStep, hf, hc, groupPred_skipped (Or.inr hc)]
      · simp only [detailStep, hf, if_neg hc]
        rw [detailSumAt_insert, groupPred_kept hf hc]
        by_cases hv : v = v0 <;> simp [hv]

theorem details_group_sum (data : List UsageRecord) (key v : String) :
    detailSumAt (prepareDetails data key) v = recCostSum (groupOf data key v) := by
  induction data using List.reverseRecOn with
  | nil => rfl
  | append_singleton l r ih =>
      have hstep : prepareDetails (l ++ [r]) key =
          detailStep key (prepareDetails l key) r := by
        simp [prepareDetails, List.foldl_append]
      rw [hstep, detailSumAt_step, ih, groupOf_append_one, recCostSum_append]
      by_cases hp : groupPred key v r <;> simp [hp, recCostSum]

theorem detailInsert_type (key v : String) (r : UsageRecord) :
    ∀ acc : List DetailRow, (∀ d ∈ acc, d.type = key) →
      ∀ d ∈ detailInsert key v r acc, d.type = key
  | [], _, d, hd => by
      simp [detailInsert] at hd
      rw [hd]
      rfl
  | d0 :: ds, hacc, d, hd => by
      by_cases hm : d0.key = v ∧ d0.batch_resource = r.sku_description
      · simp only [detailInsert, if_pos hm] at hd
        rcases List.mem_cons.mp hd with hd | hd
        · rw [hd]
          exact hacc d0 (List.mem_cons_self _ _)
        · exact hacc d (List.mem_cons_of_mem _ hd)
      · simp only [detailInsert, if_neg hm] at hd
        rcases List.mem_cons.mp hd with hd | hd
        · rw [hd]
          exact hacc d0 (List.mem_cons_self _ _)
        · exact detailInsert_type key v r ds
            (fun x hx => hacc x (List.mem_cons_of_mem _ hx)) d hd

theorem foldl_detailStep_type (key : String) :
    ∀ (data : List UsageRecord) (acc : List DetailRow),
      (∀ d ∈ acc, d.type = key) →
      ∀ d ∈ data.foldl (detailStep key) acc, d.type = key
  | [], _, hacc => hacc
  | r :: rest, acc, hacc => by
      apply foldl_detailStep_type key rest
      intro d hd
      cases hf : r.fields key with
      | none =>
          rw [detailStep, hf] at hd
          exact hacc d hd
      | some v =>
          by_cases hc : r.cost < 0
          · rw [detailStep, hf] at hd
            simp only [if_pos hc] at hd
            exact hacc d hd
          · rw [detailStep, hf] at hd
            simp only [if_neg hc] at hd
            exact detailInsert_type key v r acc hacc d hd

theorem prepareDetails_type (data : List UsageRecord) (key : String) :
    ∀ d ∈ prepareDetails data key, d.type = key :=
  foldl_detailStep_type key data [] (by intro d hd; simp at hd)

/-- An aggregate row together with its attached detail rows (the object
`{ ...dataItem, details }` built by `combinedData`, lines 594-600). -/
structure CombinedRow where
  row : AggRow
  details : List DetailRow
deriving DecidableEq

/-- `aggData` (line 590): the totals rows of the four grouping keys. -/
def aggDataAll (data : List UsageRecord) : List AggRow :=
  prepareTotalRow data "ar-guid" ++ prepareTotalRow data "wdl-task-name" ++
    prepareTotalRow data "cromwell-sub-workflow-name" ++
    prepareTotalRow data "seq_group_id"

/-- `aggResource` (line 591): the detail rows of the four grouping keys. -/
def aggResourceAll (data : List UsageRecord) : List DetailRow :=
  prepareDetails data "ar-guid" ++
    prepareDetails data "cromwell-sub-workflow-name" ++
    prepareDetails data "wdl-task-name" ++ prepareDetails data "seq_group_id"

/-- `combinedData` (lines 594-600): each aggregate row gets the detail rows
sharing its key and type. -/
def combinedData (data : List UsageRecord) : List CombinedRow :=
  (aggDataAll data).map fun d =>
    { row := d
      details := (aggResourceAll data).filter
        (fun rr => rr.key == d.key && rr.type == d.type) }

theorem filter_details_other (data : List UsageRecord) (kd kc v : String)
    (h : kd ≠ kc) :
    (prepareDetails data kd).filter
      (fun rr => rr.key == v && rr.type == kc) = [] := by
  rw [List.filter_eq_nil_iff]
  intro rr hrr
  have ht := prepareDetails_type data kd rr hrr
  simp [ht, h]

theorem filter_details_same (data : List UsageRecord) (k v : String) :
    (prepareDetails data k).filter (fun rr => rr.key == v && rr.type == k) =
      (prepareDetails data k).filter (fun rr => rr.key == v) := by
  apply List.filter_congr
  intro rr hrr
  have ht := prepareDetails_type data k rr hrr
  simp [ht]

theorem details_filter_sum (data : List UsageRecord) (k v : String)
    (hk : k = "ar-guid" ∨ k = "wdl-task-name" ∨
          k = "cromwell-sub-workflow-name" ∨ k = "seq_group_id") :
    detailCostSum ((aggResourceAll data).filter
        (fun rr => rr.key == v && rr.type == k)) =
      recCostSum (groupOf data k v) := by
  have hsame : ∀ k2,
      detailCostSum ((prepareDetails data k2).filter
        (fun rr => rr.key == v && rr.type == k2)) =
        recCostSum (groupOf data k2 v) := by
    intro k2
    rw [filter_details_same]
    exact details_group_sum data k2 v
  rcases hk with hk | hk | hk | hk <;>
    (subst hk
     simp only [aggResourceAll, List.filter_append, detailCostSum_append]
     rw [hsame]) <;>
    rw [filter_details_other data _ _ v (by decide),
        filter_details_other data _ _ v (by decide),
        filter_details_other data _ _ v (by decide)] <;>
    simp [detailCostSum]

theorem combinedData_details_cost (data : List UsageRecord) (c : CombinedRow)
    (hc : c ∈ combinedData data) : detailCostSum c.details = c.row.cost := by
  obtain ⟨d, hd, he⟩ := List.mem_map.mp hc
  subst he
  show detailCostSum ((aggResourceAll data).filter
    (fun rr => rr.key == d.key && rr.type == d.type)) = d.cost
  have hmain : ∀ k : String, d ∈ prepareTotalRow data k →
      (k = "ar-guid" ∨ k = "wdl-task-name" ∨
       k = "cromwell-sub-workflow-name" ∨ k = "seq_group_id") →
      detailCostSum ((aggResourceAll data).filter
        (fun rr => rr.key == d.key && rr.type == d.type)) = d.cost := by
    intro k hkmem hk4
    obtain ⟨htype, hcost, _, _⟩ := (totalsInvariant_holds k data).2.1 d hkmem
    simp only [htype]
    rw [details_filter_sum data k d.key hk4]
    exact hcost.symm
  have hd4 : d ∈ prepareTotalRow data "ar-guid" ∨
      d ∈ prepareTotalRow data "wdl-task-name" ∨
      d ∈ prepareTotalRow data "cromwell-sub-workflow-name" ∨
      d ∈ prepareTotalRow data "seq_group_id" := by
    simpa [aggDataAll, or_assoc] using hd
  rcases hd4 with h | h | h | h
  · exact hmain "ar-guid" h (by decide)
  · exact hmain "wdl-task-name" h (by decide)
  · exact hmain "cromwell-sub-workflow-name" h (by decide)
  · exact hmain "seq_group_id" h (by decide)

/-- The four grouping keys of the Cromwell/Dataproc grid (lines 579-588). -/
def groupingKeys : List String :=
  ["ar-guid", "wdl-task-name", "cromwell-sub-workflow-name", "seq_group_id"]

/-- No record of the input is dropped by any of the four aggregations. -/
def noDroppedRecords (data : List UsageRecord) : Prop :=
  ∀ r ∈ data, ∀ k ∈ groupingKeys, keptBy k r = true

/-- C6: Every `CombinedRow` produced by combining totals with details has
detail costs summing to at most the parent aggregate row's cost, with
equality when no records are dropped.  (The proof shows that equality in
fact always holds: totals and details drop exactly the same records.) -/
theorem combined_details_sum_bounded (data : List UsageRecord) (c : CombinedRow)
    (hc : c ∈ combinedData data) :
    detailCostSum c.details ≤ c.row.cost ∧
    (noDroppedRecords data → detailCostSum c.details = c.row.cost) :=
  ⟨le_of_eq (combinedData_details_cost data c hc),
   fun _ => combinedData_details_cost data c hc⟩

/-- The combined row that `combinedData` produces from `sampleRecord`. -/
def sampleCombined : CombinedRow :=
  { row := mkAggRow "ar-guid" "guid-1" sampleRecord
    details := [mkDetailRow "ar-guid" "guid-1" sampleRecord] }

theorem combined_details_sum_bounded_witness :
    detailCostSum sampleCombined.details ≤ sampleCombined.row.cost ∧
    (noDroppedRecords [sampleRecord] →
      detailCostSum sampleCombined.details = sampleCombined.row.cost) :=
  combined_details_sum_bounded [sampleRecord] sampleCombined (by decide)

/-! ## Participant grid row spans (ProjectGrid.tsx, first document)

The participant tree rendered by `ProjectGrid` (lines 279-450): participants
hold samples, samples hold sequencing groups (possibly `null`/`undefined`),
sequencing groups hold assays (possibly `null`/`undefined`).  Only the
structure consumed by the row-span computation and the placeholder synthesis
is modelled; an assay's payload is irrelevant to the layout except for the
placeholder's `id`. -/
structure Assay where
  id : Int
deriving DecidableEq

/-- A sequencing group; `{}`, the placeholder synthesized at line 309, has
neither an `id` nor an `assays` property. -/
structure SeqGroup where
  id : Option Int
  assays : Option (List Assay)
deriving DecidableEq

structure Sample where
  id : String
  sequencing_groups : Option (List SeqGroup)
deriving DecidableEq

structure Participant where
  samples : List Sample
deriving DecidableEq

/-- `lengthOfParticipant` (lines 285-296): per sample, the grid reserves
`Math.max(1, total assay count over the sample's sequencing groups)` rows,
and sums over the participant's samples (`reduce((a, b) => a + b, 0)`). -/
def lengthOfParticipant (p : Participant) : Nat :=
  (p.samples.map (fun s2 =>
      max 1 (((s2.sequencing_groups.getD []).map
          (fun a2 => (a2.assays.getD []).length)).foldl (fun a b => a + b) 0))).foldl
    (fun a b => a + b) 0

/-- `lengthOfSamples` (lines 298-300): the total assay count of one sample. -/
def lengthOfSamples (s : Sample) : Nat :=
  ((s.sequencing_groups.getD []).map
      (fun a2 => (a2.assays.getD []).length)).foldl (fun a b => a + b) 0

/-- `participantRowSpan` (lines 302-303): the reserved row count, or
`undefined` when it is zero. -/
def participantRowSpan (p : Participant) : Option Nat :=
  if 0 < lengthOfParticipant p then some (lengthOfParticipant p) else none

/-- The `{}` placeholder sequencing group synthesized at line 309. -/
def emptySeqGroup : SeqGroup := { id := none, assays := none }

/-- The `{ id: 0 }` placeholder assay synthesized at line 312. -/
def placeholderAssay : Assay := { id := 0 }

/-- Lines 306-310: `let sgs = s.sequencing_groups || []` followed by
`if (!sgs || sgs.length === 0) sgs = [{}]`: a sample with no sequencing
groups gets a single empty placeholder group. -/
def sgsRendered (s : Sample) : List SeqGroup :=
  let sgs := s.sequencing_groups.getD []
  if sgs.length = 0 then [emptySeqGroup] else sgs

/-- Line 312: `(!!sg?.assays) ? sg.assays : [{ id: 0 }]`.  The truthiness
test `!!sg?.assays` is false only for a missing (`undefined`/`null`) assay
list; an empty array is truthy in JavaScript, so a present-but-empty list is
kept as-is and renders no rows. -/
def assaysRendered (sg : SeqGroup) : List Assay :=
  match sg.assays with
  | some as2 => as2
  | none => [placeholderAssay]

/-- Number of table rows actually rendered for one sample: one row per
rendered assay of each rendered sequencing group (lines 311-447). -/
def rowCountOfSample (s : Sample) : Nat :=
  ((sgsRendered s).map (fun g => (assaysRendered g).length)).sum

/-- Number of table rows actually rendered for one participant. -/
def rowCountOfParticipant (p : Participant) : Nat :=
  (p.samples.map rowCountOfSample).sum

/-! ### C2: the row-span formula -/

/-- The spec's per-sample row reservation: `max(1, total assay count across
the sample's sequencing groups)`. -/
def specSampleSpan (s : Sample) : Nat :=
  max 1 (((s.sequencing_groups.getD []).map
      (fun g => (g.assays.getD []).length)).sum)

/-- The spec's participant row-span: the sum of the per-sample spans. -/
def specParticipantRowSpan (p : Participant) : Nat :=
  (p.samples.map specSampleSpan).sum

theorem foldl_add_eq_sum : ∀ (l : List Nat) (n : Nat),
    l.foldl (fun a b => a + b) n = n + l.sum
  | [], n => by simp
  | x :: xs, n => by
      simp [List.foldl_cons, foldl_add_eq_sum xs (n + x), Nat.add_assoc]

/-- The participant of the spec's worked example: two samples, each with one
sequencing group, having 3 and 0 assays respectively. -/
def exampleParticipant : Participant :=
  { samples :=
      [ { id := "sample1"
          sequencing_groups :=
            some [{ id := some 1
                    assays := some [{ id := 1 }, { id := 2 }, { id := 3 }] }] },
        { id := "sample2"
          sequencing_groups := some [{ id := some 2, assays := some [] }] } ] }

/-- C2: Every participant's reserved row count equals the sum over its
samples of `max(1, total assay count across the sample's sequencing
groups)`; in particular the example participant (samples with 3 and 0
assays) gets row-span `3 + 1 = 4`. -/
theorem participant_rowspan_matches_spec :
    (∀ p : Participant, lengthOfParticipant p = specParticipantRowSpan p) ∧
    lengthOfParticipant exampleParticipant = 4 ∧
    participantRowSpan exampleParticipant = some 4 := by
  refine ⟨?_, by decide, by decide⟩
  intro p
  have hfun : (fun s2 : Sample =>
      max 1 (((s2.sequencing_groups.getD []).map
          (fun a2 => (a2.assays.getD []).length)).foldl (fun a b => a + b) 0)) =
      specSampleSpan := by
    funext s
    simp [specSampleSpan, foldl_add_eq_sum]
  simp only [lengthOfParticipant, specParticipantRowSpan, hfun]
  rw [foldl_add_eq_sum, Nat.zero_add]

/-! ### C3: placeholder synthesis

The claim states that a sequencing group with an empty **or** missing assay
list is replaced by a single placeholder assay, so that every sample renders
at least one row.  The code replaces only a missing list: `!!sg?.assays` is
`true` for an empty array (arrays are truthy in JavaScript), so a sample
whose only sequencing group has `assays: []` renders zero rows — even though
`lengthOfParticipant` (the code's own row-span accounting, commented "we
want to show at least 1 row, even if there are no sequencing groups OR
assays", lines 287-288) reserves one row for it. -/

/-- A sample whose single sequencing group has a present but empty assay
list. -/
def bugSample : Sample :=
  { id := "sampleX"
    sequencing_groups := some [{ id := some 1, assays := some [] }] }

/-- C3 (failing input): the sample with an empty assay list renders zero
rows, while the row-span accounting reserves one row for it; the
present-but-empty list is not replaced by the placeholder assay. -/
theorem empty_assays_renders_zero_rows :
    rowCountOfSample bugSample = 0 ∧
    lengthOfParticipant { samples := [bugSample] } = 1 ∧
    assaysRendered { id := some 1, assays := some [] } = [] := by
  refine ⟨by decide, by decide, rfl⟩

/-! ## Byte formatting (src/unnamed/part_000, lines 26-36)

`formatBytes` guards with `if (!+bytes) return '0 Bytes'`, picks the unit
index `i = Math.floor(Math.log(bytes) / Math.log(1024))`, and renders
`parseFloat((bytes / 1024 ** i).toFixed(dm))` followed by the unit name.
`Math.log` is modelled as the exact real logarithm, so the index is
`Nat.log 1024 bytes` for a positive integer byte count.  All call sites use
the default `decimals = 2`, so `dm = 2` is fixed here.  `toFixed(2)` rounds
half-up to two decimals, and `parseFloat` drops the trailing zeros, which
`twoDecimalString` reproduces for the nonnegative values that occur. -/

def byteSizes : List String :=
  ["Bytes", "KB", "MB", "GB", "TB", "PB", "EB", "ZB", "YB"]

/-- The unit index `Math.floor(Math.log(bytes) / Math.log(1024))`. -/
def fbIndex (bytes : Nat) : Nat := Nat.log 1024 bytes

/-- Renders the rational `n / 100` (with `n ≥ 0`) in decimal with at most
two decimals and trailing zeros trimmed, as
`parseFloat(x.toFixed(2))` does when interpolated into the template. -/
def twoDecimalString (n : Int) : String :=
  let ip := n / 100
  let fr := n % 100
  if fr = 0 then toString ip
  else if fr % 10 = 0 then toString ip ++ "." ++ toString (fr / 10)
  else if fr < 10 then toString ip ++ ".0" ++ toString fr
  else toString ip ++ "." ++ toString fr

/-- `formatBytes` for a nonnegative integer byte count (the sizes in this
file are `File.size` values).  An index beyond the `sizes` array renders the
JS `undefined`. -/
def formatBytes (bytes : Nat) : String :=
  if bytes = 0 then "0 Bytes"
  else
    twoDecimalString (round ((bytes : ℚ) / (1024 : ℚ) ^ fbIndex bytes * 100)) ++
      " " ++ byteSizes.getD (fbIndex bytes) "undefined"

/-- `formatBytes` on a possibly negative integer: `Math.log` of a negative
number is `NaN`, so the index and the scaled value are `NaN` and the
rendered string is `"NaN undefined"`. -/
def formatBytesJS (n : Int) : String :=
  if n < 0 then "NaN undefined" else formatBytes n.toNat

/-- C7: The byte formatter picks its unit from the base-1024 sequence
`Bytes/KB/.../YB` by `⌊log bytes / log 1024⌋`, rounds to two decimals, and
in particular `formatBytes 0 = "0 Bytes"`, `formatBytes 1024 = "1 KB"` and
`formatBytes 1536 = "1.5 KB"`. -/
theorem formatBytes_spec :
    (∀ n : Nat, (fbIndex n : ℤ) = ⌊Real.logb 1024 (n : ℝ)⌋) ∧
    formatBytes 0 = "0 Bytes" ∧ formatBytes 1024 = "1 KB" ∧
    formatBytes 1536 = "1.5 KB" := by
  have hidx1 : fbIndex 1024 = 1 :=
    Nat.log_eq_of_pow_le_of_lt_pow (by norm_num) (by norm_num)
  have hidx2 : fbIndex 1536 = 1 :=
    Nat.log_eq_of_pow_le_of_lt_pow (by norm_num) (by norm_num)
  have hr1 : round (((1024 : ℕ) : ℚ) / (1024 : ℚ) ^ (1 : ℕ) * 100) = 100 := by
    rw [round_eq]
    norm_num
  have hr2 : round (((1536 : ℕ) : ℚ) / (1024 : ℚ) ^ (1 : ℕ) * 100) = 150 := by
    rw [round_eq]
    norm_num
  have h1 : formatBytes 1024 =
      twoDecimalString (round (((1024 : ℕ) : ℚ) / (1024 : ℚ) ^ fbIndex 1024 * 100)) ++
        " " ++ byteSizes.getD (fbIndex 1024) "undefined" := rfl
  have h2 : formatBytes 1536 =
      twoDecimalString (round (((1536 : ℕ) : ℚ) / (1024 : ℚ) ^ fbIndex 1536 * 100)) ++
        " " ++ byteSizes.getD (fbIndex 1536) "undefined" := rfl
  refine ⟨?_, rfl, ?_, ?_⟩
  · intro n
    have h1024 : ((1024 : ℕ) : ℝ) = (1024 : ℝ) := by norm_num
    rw [← h1024, Real.floor_logb_natCast (Nat.cast_nonneg n), Int.log_natCast]
    rfl
  · rw [h1, hidx1, hr1]
    decide
  · rw [h2, hidx2, hr2]
    decide

/-! ## External-id rendering (src/unnamed/part_000, lines 107-109)

The `externalIds` table cell renders
`Object.entries(seqInfo.externalIds).map(([k1, v1]) => `\x7bv1\x7d (\x7bk1\x7d)`).join(', ')`:
an external-id map is a list of `(code, id)` entries, each rendered as
`"<id> (<code>)"` — unconditionally, with no special case for an
empty-string code. -/

/-- `Array.prototype.join(sep)` on a list of strings. -/
def jsJoin (sep : String) : List String → String
  | [] => ""
  | [s] => s
  | s :: rest => s ++ sep ++ jsJoin sep rest

/-- The external-id cell text for the entry list of the map, in entry order. -/
def formatExternalIds (ids : List (String × String)) : String :=
  jsJoin ", " (ids.map (fun kv => kv.2 ++ " (" ++ kv.1 ++ ")"))

/-- Modelled from the claim's words, for comparison with the code: pairs
render as `"<id> (<code>)"` joined by `", "`, except that an empty-string
code omits the parenthetical. -/
def specFormatExternalIds (ids : List (String × String)) : String :=
  jsJoin ", " (ids.map (fun kv =>
    if kv.1 = "" then kv.2 else kv.2 ++ " (" ++ kv.1 ++ ")"))

/-- C8 (counterexample): on the single entry with empty code `""` and id
`"ID1"` the code renders `"ID1 ()"`, not the `"ID1"` the claim demands. -/
theorem external_ids_empty_code_counterexample :
    formatExternalIds [("", "ID1")] ≠ specFormatExternalIds [("", "ID1")] := by
  decide

/-- The amended formatting rule: every pair, including one with an
empty-string code, renders as `"<id> (<code>)"`, the pieces joined by
`", "`. -/
def specExternalIdsAmended : List (String × String) → String
  | [] => ""
  | [kv] => kv.2 ++ " (" ++ kv.1 ++ ")"
  | kv :: rest => kv.2 ++ " (" ++ kv.1 ++ ")" ++ ", " ++ specExternalIdsAmended rest

theorem formatExternalIds_eq_amended :
    ∀ ids : List (String × String), formatExternalIds ids = specExternalIdsAmended ids
  | [] => rfl
  | [kv] => rfl
  | kv :: kv2 :: rest => by
      have ih := formatExternalIds_eq_amended (kv2 :: rest)
      show kv.2 ++ " (" ++ kv.1 ++ ")" ++ ", " ++ formatExternalIds (kv2 :: rest) = _
      rw [ih]
      rfl

/-- C8 (amended): external-id maps format as `"<id> (<code>)"` pairs joined
by `", "`; an empty-string code still produces its (empty) parenthetical
`"()"` rather than omitting it. -/
theorem external_ids_always_parenthesised (ids : List (String × String)) :
    formatExternalIds ids = specExternalIdsAmended ids :=
  formatExternalIds_eq_amended ids

/-! ## SeqInfo value formatting (src/unnamed/part_000, lines 76-93)

`safeValue` receives arbitrary JavaScript metadata values.  A JS value is
modelled by `JSVal`: `null`, `undefined`, booleans, numbers (the integer
metadata values that occur; JS `NaN` is not representable in this integer
model), strings, arrays and plain objects (ordered key/value lists with
distinct keys). -/
inductive JSVal where
  | null : JSVal
  | undefined : JSVal
  | bool : Bool → JSVal
  | num : Int → JSVal
  | str : String → JSVal
  | arr : List JSVal → JSVal
  | obj : List (String × JSVal) → JSVal

/-- JavaScript truthiness: `null`, `undefined`, `false`, `0` and `""` are
falsy; every array and object (even empty) is truthy. -/
def truthy : JSVal → Bool
  | .null => false
  | .undefined => false
  | .bool b => b
  | .num n => n != 0
  | .str s => s != ""
  | .arr _ => true
  | .obj _ => true

/-- Property access `value[k]`: the first entry with key `k`, else
`undefined`. -/
def getField (fs : List (String × JSVal)) (k : String) : JSVal :=
  match fs.find? (fun kv => kv.1 == k) with
  | some kv => kv.2
  | none => .undefined

/-- JSON string escaping, restricted to the backslash and quote (sufficient
for the metadata strings rendered here). -/
def jsonEscapeList : List Char → List Char
  | [] => []
  | c :: cs =>
      if c = '\\' then '\\' :: '\\' :: jsonEscapeList cs
      else if c = '\"' then '\\' :: '\"' :: jsonEscapeList cs
      else c :: jsonEscapeList cs

def jsonEscape (s : String) : String := ⟨jsonEscapeList s.data⟩

mutual
/-- `JSON.stringify`: objects drop `undefined`-valued properties, arrays
render `undefined` elements as `null`.  (A top-level `undefined` makes
`JSON.stringify` return no string at all; that case is unreachable from
`safeValue`, which only stringifies truthy non-array non-string values.) -/
def jsonStringify : JSVal → String
  | .null => "null"
  | .undefined => "undefined"
  | .bool b => if b then "true" else "false"
  | .num n => toString n
  | .str s => "\"" ++ jsonEscape s ++ "\""
  | .arr es => "[" ++ jsonArr es ++ "]"
  | .obj fs => "\x7b" ++ jsonObj fs ++ "\x7d"

def jsonArr : List JSVal → String
  | [] => ""
  | [.undefined] => "null"
  | [e] => jsonStringify e
  | .undefined :: es => "null" ++ "," ++ jsonArr es
  | e :: es => jsonStringify e ++ "," ++ jsonArr es

def jsonObj : List (String × JSVal) → String
  | [] => ""
  | (_, .undefined) :: rest => jsonObj rest
  | (k, v) :: rest =>
      let s := "\"" ++ jsonEscape k ++ "\":" ++ jsonStringify v
      let t := jsonObj rest
      if t = "" then s else s ++ "," ++ t
end

mutual
/-- `String(value)` / template-literal coercion: arrays join their elements
with `","`, rendering `null`/`undefined` elements as the empty string;
objects render as `"[object Object]"`. -/
def displayString : JSVal → String
  | .null => "null"
  | .undefined => "undefined"
  | .bool b => if b then "true" else "false"
  | .num n => toString n
  | .str s => s
  | .arr es => displayList es
  | .obj _ => "[object Object]"

def displayList : List JSVal → String
  | [] => ""
  | [.null] => ""
  | [.undefined] => ""
  | [e] => displayString e
  | .null :: es => "," ++ displayList es
  | .undefined :: es => "," ++ displayList es
  | e :: es => displayString e ++ "," ++ displayList es
end

/-- One element of `Array.prototype.join`: like `String(...)` except that
`null` and `undefined` become the empty string.  `safeValue` never returns
an array or an object, so those cases only matter for totality. -/
def joinPiece : JSVal → String
  | .null => ""
  | .undefined => ""
  | other => displayString other

/-- `formatBytes(value.size)`: JS coerces the argument to a number first.
`File.size` is typed `number`, so the `num` case is the one that occurs;
the remaining cases model `Number(...)` coercion for integral inputs, with
every non-numeric coercion producing `NaN`, which the `!+bytes` guard then
renders as `"0 Bytes"` (`formatBytes 0`). -/
def formatBytesOf : JSVal → String
  | .num n => formatBytesJS n
  | .str s =>
      match s.toInt? with
      | some m => formatBytesJS m
      | none => formatBytes 0
  | .bool b => formatBytesJS (if b then 1 else 0)
  | .null => formatBytes 0
  | .undefined => formatBytes 0
  | .arr [JSVal.num n] => formatBytesJS n
  | .arr _ => formatBytes 0
  | .obj _ => formatBytes 0

/-- The file-style rendering of line 89:
```${value.location} (${formatBytes(value.size)})``. -/
def fileDisplay (fs : List (String × JSVal)) : String :=
  displayString (getField fs "location") ++ " (" ++
    formatBytesOf (getField fs "size") ++ ")"

mutual
/-- `safeValue` (lines 76-93).  The guard `if (!value) return value` returns
every falsy value unchanged; it is distributed here over the constructors:
`null`, `undefined`, `false`, `0` and `""` are falsy and pass through.
Truthy arrays map `safeValue` over their elements and join with `", "`;
truthy numbers become their decimal string; strings are returned as-is;
objects with truthy `location` and `size` get the file-style rendering, and
every other truthy non-array non-number non-string value falls through to
`JSON.stringify`. -/
def safeValue : JSVal → JSVal
  | .null => .null
  | .undefined => .undefined
  | .bool b => if truthy (.bool b) = false then .bool b else .str (jsonStringify (.bool b))
  | .num n => if truthy (.num n) = false then .num n else .str (toString n)
  | .str s => .str s
  | .arr es => .str (jsJoin ", " (safeParts es))
  | .obj fs =>
      if truthy (getField fs "location") && truthy (getField fs "size") then
        .str (fileDisplay fs)
      else .str (jsonStringify (.obj fs))

def safeParts : List JSVal → List String
  | [] => []
  | e :: es => joinPiece (safeValue e) :: safeParts es
end

/-! ### C9: `safeValue` on numbers -/

/-- C9 (counterexample): the number `0` is falsy, so `safeValue` returns the
number `0` itself — not the decimal string `"0"` the claim requires of every
number. -/
theorem safeValue_zero_counterexample :
    safeValue (JSVal.num 0) = JSVal.num 0 ∧
    safeValue (JSVal.num 0) ≠ JSVal.str (toString (0 : Int)) := by
  refine ⟨rfl, fun h => ?_⟩
  exact JSVal.noConfusion (show JSVal.num 0 = JSVal.str "0" from h)

/-- C9 (amended): `safeValue` returns the decimal string representation of
every nonzero number; the falsy number `0` passes through unchanged. -/
theorem safeValue_number_amended (n : Int) :
    safeValue (JSVal.num n) =
      if n = 0 then JSVal.num 0 else JSVal.str (toString n) := by
  by_cases h : n = 0
  · subst h
    simp [safeValue, truthy]
  · simp [safeValue, truthy, h]

/-! ### C10: the file-style rendering requires a truthy size -/

/-- C10: `safeValue` applies the file-style rendering only when both
`location` and `size` are truthy: for every object with a (truthy) location
but a missing, zero, or otherwise falsy size it returns the JSON structural
dump of the object instead. -/
theorem safeValue_file_requires_truthy_size (fs : List (String × JSVal))
    (hloc : truthy (getField fs "location") = true)
    (hsz : truthy (getField fs "size") = false) :
    safeValue (JSVal.obj fs) = JSVal.str (jsonStringify (JSVal.obj fs)) := by
  simp [safeValue, hloc, hsz]

/-- A file-like object whose `size` is the falsy number `0`. -/
def fileNoSize : List (String × JSVal) :=
  [("location", JSVal.str "gs:x"), ("size", JSVal.num 0)]

theorem safeValue_file_requires_truthy_size_witness :
    safeValue (JSVal.obj fileNoSize) =
      JSVal.str (jsonStringify (JSVal.obj fileNoSize)) :=
  safeValue_file_requires_truthy_size fileNoSize rfl rfl
